import Mathlib

/-!
Formal model of the `gluster_peer` Ansible module
(`lib/ansible/modules/storage/glusterfs/gluster_peer.py`) and of the
peer-API client (`lib/ansible/module_utils/storage/glusterfs/peer.py`).

The module reconciles the membership of a GlusterFS trusted storage pool
against a desired node list, through one of two backends:
 * a legacy CLI backend (`gluster peer probe/detach`, `gluster pool list`),
 * a REST API backend (GlusterD2) for versions above 4.

External effects (process execution, HTTP transport) are passed in as
explicit environments: a command execution is a function from the argv list
to a `CmdResult`, an API call is a function from the request key to a
response value.  Python strings are modelled as Lean `String`, with the
string operations (`split`, `strip`, `lower`, `in`) re-implemented over
`List Char` so that every definition evaluates inside the kernel.
-/

namespace GlusterPeer

/-- Split a character list at every occurrence of `c`.  Mirrors Python
`str.split(c)`: splitting the empty string yields `[""]`, and a trailing
separator yields a trailing empty part. -/
def splitOnChar (c : Char) : List Char → List (List Char)
  | [] => [[]]
  | h :: t =>
    let r := splitOnChar c t
    if h = c then [] :: r
    else
      match r with
      | [] => [[h]]
      | x :: xs => (h :: x) :: xs

/-- String version of `splitOnChar`; model of Python `s.split(c)` for a
one-character separator (the only separators the module uses). -/
def sSplit (c : Char) (s : String) : List String :=
  (splitOnChar c s.data).map (fun l => ⟨l⟩)

/-- Substring occurrence over character lists. -/
def containsChars : List Char → List Char → Bool
  | [], pat => pat.isEmpty
  | h :: t, pat => pat.isPrefixOf (h :: t) || containsChars t pat

/-- Model of Python `pat in s` (substring containment). -/
def sContains (s pat : String) : Bool := containsChars s.data pat.data

/-- Model of Python `s.strip()`: drop whitespace from both ends. -/
def sTrim (s : String) : String :=
  ⟨((s.data.dropWhile Char.isWhitespace).reverse.dropWhile Char.isWhitespace).reverse⟩

/-- Model of Python `s.lower()` (the module only lowercases ASCII reason
strings). -/
def sLower (s : String) : String := ⟨s.data.map Char.toLower⟩

/-- Result of one external command invocation, as returned by
`module.run_command`: exit code, captured stdout, captured stderr. -/
structure CmdResult where
  rc : Int
  stdout : String
  stderr : String
deriving DecidableEq

/-- The argv list built for one peer action in `Peer.call_peer_commands`:
`peercmd = [self.glustercmd, 'peer', self.action, node]`, with
`self.force` appended when it is a non-empty string. -/
def peercmd (glustercmd action force node : String) : List String :=
  let cmd := [glustercmd, "peer", action, node]
  if force ≠ "" then cmd ++ [force] else cmd

/-- The sentinel test of `Peer.call_peer_commands`:
`'already in peer' in out or 'localhost not needed' in out`. -/
def sentinelUnchanged (out : String) : Bool :=
  sContains out "already in peer" || sContains out "localhost not needed"

/-- Terminal outcome of one module run: `exited changed` models
`module.exit_json(changed=...)`; `failed changed rc msg` models
`module.fail_json(...)` (the `rc` field is present only when a command's
non-zero exit code was recorded, hence the `Option`). -/
inductive RunOutcome where
  | exited (changed : Bool)
  | failed (changed : Bool) (rc : Option Int) (msg : String)
deriving DecidableEq

/-- Model of the loop of `Peer.call_peer_commands`: for each node run
`peercmd`; a non-zero exit code fails the whole run at once with the
captured stderr (remaining nodes are never executed); exit code zero with a
sentinel substring in stdout leaves the `changed` flag as it is
(`result['changed'] |= False`); exit code zero otherwise sets it to `True`.
The accumulated `changed` flag is threaded explicitly; the source starts it
at `False`. -/
def call_peer_commands (exec2 : List String → CmdResult)
    (glustercmd action force : String) : List String → Bool → RunOutcome
  | [], changed => .exited changed
  | node :: rest, changed =>
    let res := exec2 (peercmd glustercmd action force node)
    if res.rc ≠ 0 then .failed changed (some res.rc) res.stderr
    else if sentinelUnchanged res.stdout then
      call_peer_commands exec2 glustercmd action force rest changed
    else
      call_peer_commands exec2 glustercmd action force rest true

/-- Parsing of the `gluster pool list` stdout in
`Peer.get_to_be_probed_hosts`:
`[line.split('\t')[1].strip() for line in filter(None, output.split('\n')[1:])]`.
The header row is dropped, empty lines are discarded, and the second
tab-separated field of each remaining line is stripped.  A line with no
second field raises `IndexError` in Python; that is modelled by `none`. -/
def parsePoolList (output : String) : Option (List String) :=
  (((sSplit '\n' output).drop 1).filter (fun l => l ≠ "")).mapM
    (fun line => ((sSplit '\t' line).get? 1).map sTrim)

/-- Model of Python `list.remove(x)` wrapped in `try/except ValueError`:
remove the first occurrence of `x` if present, otherwise leave the list
unchanged. -/
def removeFirst (x : String) : List String → List String
  | [] => []
  | a :: rest => if a = x then rest else a :: removeFirst x rest

/-- Model of `Peer.get_to_be_probed_hosts`: parse the pool listing from the
command result's stdout (note that the exit code `poolRes.rc` is never
consulted by the source), drop the first `localhost` entry, and keep the
desired hosts that are not current members. -/
def get_to_be_probed_hosts (poolRes : CmdResult) (hosts : List String) :
    Option (List String) :=
  (parsePoolList poolRes.stdout).map (fun peers_in_cluster =>
    let peers := removeFirst "localhost" peers_in_cluster
    hosts.filter (fun h => decide (h ∉ peers)))

/-- Model of `Peer.gluster_peer_ops`: an empty node list fails at once; for
`state == 'present'` the node list is replaced by the to-be-probed delta,
the action is `probe` and `force` is cleared; otherwise the action is
`detach` and `force` is `'force'` exactly when the module parameter was
set.  `none` models the Python `IndexError` crash on a malformed pool
listing. -/
def gluster_peer_ops (glustercmd state : String) (nodes : List String)
    (forceParam : Bool) (poolRes : CmdResult)
    (exec2 : List String → CmdResult) : Option RunOutcome :=
  if nodes.isEmpty then some (.failed false none "nodes list cannot be empty")
  else
    let force := if forceParam then "force" else ""
    if state = "present" then
      (get_to_be_probed_hosts poolRes nodes).map (fun nodes2 =>
        call_peer_commands exec2 glustercmd "probe" "" nodes2 false)
    else
      some (call_peer_commands exec2 glustercmd "detach" force nodes false)

/-- The current-member list in the spec's words: every row of the parsed
pool listing except any `localhost` self-entry.  (The source instead
removes only the first `localhost` occurrence; the two agree whenever
`localhost` occurs at most once, which is what the listing format
produces.) -/
def specCurrentMembers (peers : List String) : List String :=
  peers.filter (fun p => p ≠ "localhost")

/-- Response of one `PeerApis.peer_add` call as seen by
`Peer.glusterd2_add_peers`.  Modelled from the spec: `_handle_request`
(whose source, `module_utils/storage/glusterfs/common.py`, is not in the
tree) returns normally exactly on the expected status 201, whose response
body echoes the created record and is therefore truthy, and raises
`GlusterApiError` carrying `e.message.reason` otherwise. -/
inductive ApiResp where
  | ok
  | apiError (reason : String)
deriving DecidableEq

/-- Terminal outcome of one API-backend run: `exited changed` models
`module.exit_json`, `failed msg` models `module.fail_json(msg=...)`. -/
inductive ApiOutcome where
  | exited (changed : Bool)
  | failed (msg : String)
deriving DecidableEq

/-- Model of the loop of `Peer.glusterd2_add_peers`: for each peer call
`client.peer_add`; on success the (truthy) response body becomes the
result dict and its `changed` field is set to `True`; on a
`GlusterApiError` whose lowercased reason is `"conflict"` the `changed`
flag is left as it is (`result['changed'] |= False`); a lowercased reason
of `"internal server error"` fails the whole run at once; any other
reason falls through both branches of the `if/elif` and the loop simply
continues with `changed` untouched. -/
def glusterd2_add_peers (resp : String → ApiResp) :
    List String → Bool → ApiOutcome
  | [], changed => .exited changed
  | peer :: rest, changed =>
    match resp peer with
    | .ok => glusterd2_add_peers resp rest true
    | .apiError reason =>
      if sLower reason = "conflict" then glusterd2_add_peers resp rest changed
      else if sLower reason = "internal server error" then
        .failed ("Failed: " ++ reason)
      else glusterd2_add_peers resp rest changed

/-- One peer record of the `GET /v1/peers` response consumed by
`Peer._get_peer_id`: display `name`, ordered `peer-addresses`
(`address:port` strings) and opaque `id`. -/
structure PeerRecord where
  name : String
  peer_addresses : List String
  id : String
deriving DecidableEq

/-- The host portion of a record's first address:
`peer['peer-addresses'][0].split(':')[0]` (total version; `buildPeerInfo`
separately guards the existence of a first address). -/
def ipOf (q : PeerRecord) : String :=
  (sSplit ':' (q.peer_addresses.headD "")).headD ""

/-- The dictionary-building loop of `Peer._get_peer_id`: for each record,
`peer_info[hostname] = peer_id` then `peer_info[peer_ipaddr] = peer_id`.
The Python dict is modelled as an association list in which the most
recent assignment of a key is found first, so each record's two pairs are
pushed in front of the accumulator (address pair in front of name pair).
A record with no address at all raises `IndexError` in Python, modelled
by `none`. -/
def buildPeerInfo : List PeerRecord → List (String × String) →
    Option (List (String × String))
  | [], acc => some acc
  | p :: rest, acc =>
    match p.peer_addresses.head? with
    | none => none
    | some a0 =>
      let peer_ipaddr := (sSplit ':' a0).headD ""
      buildPeerInfo rest ((peer_ipaddr, p.id) :: (p.name, p.id) :: acc)

/-- Lookup in the association-list model of a Python dict: the first
(most recently assigned) binding of the key wins. -/
def dictLookup (k : String) : List (String × String) → Option String
  | [] => none
  | (a, v) :: rest => if k = a then some v else dictLookup k rest

/-- Model of `Peer._get_peer_id` after the `client.peer_status()` call
returned `(status, peer_list)`: on status 200 the lookup dict is built
(`.error` standing for the Python `IndexError` crash on a record without
addresses); on any other status the run fails with `"Failed to get
peers"`. -/
def get_peer_id (status : Nat) (peer_list : List PeerRecord) :
    Except String (List (String × String)) :=
  if status = 200 then
    match buildPeerInfo peer_list [] with
    | some peer_info => .ok peer_info
    | none => .error "IndexError"
  else .error "Failed to get peers"

/-- Response of one `PeerApis.peer_remove` call as seen by
`Peer.glusterd2_remove_peers`.  Modelled from the spec: `_handle_request`
returns normally exactly on the expected status 204 (so the source's
`ret == 204` test succeeds whenever the call returns) and raises
`GlusterApiError` carrying a reason otherwise. -/
inductive RemResp where
  | ok
  | apiError (reason : String)
deriving DecidableEq

/-- Model of the loop of `Peer.glusterd2_remove_peers`: for each node look
up its peer id in the dict built by `Peer._get_peer_id`; a missing key
raises `KeyError`, which the source absorbs with
`result['changed'] |= False` (the node is skipped, `changed` untouched);
on a successful deletion (status 204) `changed` is set to `True`; a
`GlusterApiError` fails the whole run at once with the reported reason. -/
def glusterd2_remove_peers (remResp : String → RemResp)
    (peer_ids : List (String × String)) : List String → Bool → ApiOutcome
  | [], changed => .exited changed
  | node :: rest, changed =>
    match dictLookup node peer_ids with
    | none => glusterd2_remove_peers remResp peer_ids rest changed
    | some pid =>
      match remResp pid with
      | .ok => glusterd2_remove_peers remResp peer_ids rest true
      | .apiError reason => .failed ("Unable to delete peer: " ++ reason)

/-- Digit-string to natural number (accumulator form), for version
components. -/
def natOfChars : List Char → Nat → Nat
  | [], acc => acc
  | c :: t, acc => natOfChars t (acc * 10 + (c.toNat - 48))

/-- Modelled from the spec: the numeric fragment of
`distutils.version.LooseVersion` used by `main` (the stdlib class is not
repository code).  A dotted all-numeric version string parses to its list
of numeric components. -/
def parseLoose (s : String) : List Nat :=
  (sSplit '.' s).map (fun p => natOfChars p.data 0)

/-- Lexicographic strict comparison of version component lists — exactly
Python's `<` on lists of integers, which is how `LooseVersion` instances
compare for all-numeric versions: a proper prefix is smaller, otherwise
the first differing component decides. -/
def verLt : List Nat → List Nat → Bool
  | [], [] => false
  | [], _ :: _ => true
  | _ :: _, [] => false
  | a :: as, b :: bs =>
    if a < b then true
    else if b < a then false
    else verLt as bs

/-- The three outcomes of the version dispatch in `main`. -/
inductive Backend where
  | unsupported
  | legacy
  | api
deriving DecidableEq

/-- Model of the version dispatch in `main`:
`LooseVersion(version) < LooseVersion("3.2")` fails as unsupported before
any reconciliation work, `LooseVersion(version) > LooseVersion("4")`
selects `glusterd2_peer_ops` (the API backend), anything else selects
`gluster_peer_ops` (the legacy backend). -/
def selectBackend (version : String) : Backend :=
  if verLt (parseLoose version) (parseLoose "3.2") then .unsupported
  else if verLt (parseLoose "4") (parseLoose version) then .api
  else .legacy

/-! Helper lemmas about the legacy reconciler. -/

/-- The legacy loop only consults the command environment at the argv
lists of the nodes it processes. -/
lemma call_peer_commands_congr (exec1 exec2 : List String → CmdResult)
    (gc action force : String) :
    ∀ (nodes : List String) (changed : Bool),
      (∀ n ∈ nodes, exec1 (peercmd gc action force n) =
        exec2 (peercmd gc action force n)) →
      call_peer_commands exec1 gc action force nodes changed =
        call_peer_commands exec2 gc action force nodes changed := by
  intro nodes
  induction nodes with
  | nil => intro changed _; rfl
  | cons node rest ih =>
    intro changed hag
    have h0 := hag node (List.mem_cons_self node rest)
    have hrest : ∀ n ∈ rest, exec1 (peercmd gc action force n) =
        exec2 (peercmd gc action force n) :=
      fun n hn => hag n (List.mem_cons_of_mem node hn)
    simp only [call_peer_commands, h0]
    by_cases hrc : (exec2 (peercmd gc action force node)).rc ≠ 0
    · simp [hrc]
    · by_cases hs : sentinelUnchanged (exec2 (peercmd gc action force node)).stdout
      · simp [hrc, hs, ih changed hrest]
      · simp [hrc, hs, ih true hrest]

/-- When every processed command exits zero, the legacy loop terminates
successfully and its `changed` flag is the disjunction of the starting
flag with the per-node non-sentinel indicators. -/
lemma call_peer_commands_all_ok (exec2 : List String → CmdResult)
    (gc action force : String) :
    ∀ (nodes : List String) (changed : Bool),
      (∀ n ∈ nodes, (exec2 (peercmd gc action force n)).rc = 0) →
      call_peer_commands exec2 gc action force nodes changed =
        RunOutcome.exited (changed || nodes.any
          (fun n => !sentinelUnchanged (exec2 (peercmd gc action force n)).stdout)) := by
  intro nodes
  induction nodes with
  | nil => intro changed _; simp [call_peer_commands]
  | cons node rest ih =>
    intro changed h
    have h0 := h node (List.mem_cons_self node rest)
    have hrest : ∀ n ∈ rest, (exec2 (peercmd gc action force n)).rc = 0 :=
      fun n hn => h n (List.mem_cons_of_mem node hn)
    simp only [call_peer_commands, h0]
    by_cases hs : sentinelUnchanged (exec2 (peercmd gc action force node)).stdout
    · simp [hs, ih changed hrest]
    · simp [hs, ih true hrest]

/-- When every node either fails to resolve or deletes successfully, the
API removal loop terminates successfully and its `changed` flag is the
disjunction of the starting flag with the per-node resolvability
indicators. -/
lemma glusterd2_remove_peers_all_ok (remResp : String → RemResp)
    (peer_ids : List (String × String)) :
    ∀ (nodes : List String) (changed : Bool),
      (∀ n ∈ nodes, ∀ pid, dictLookup n peer_ids = some pid →
        remResp pid = RemResp.ok) →
      glusterd2_remove_peers remResp peer_ids nodes changed =
        ApiOutcome.exited (changed ||
          nodes.any (fun n => (dictLookup n peer_ids).isSome)) := by
  intro nodes
  induction nodes with
  | nil => intro changed _; simp [glusterd2_remove_peers]
  | cons node rest ih =>
    intro changed h
    have hrest : ∀ n ∈ rest, ∀ pid, dictLookup n peer_ids = some pid →
        remResp pid = RemResp.ok :=
      fun n hn => h n (List.mem_cons_of_mem node hn)
    cases hl : dictLookup node peer_ids with
    | none => simp [glusterd2_remove_peers, hl, ih changed hrest]
    | some pid =>
      have hok := h node (List.mem_cons_self node rest) pid hl
      simp [glusterd2_remove_peers, hl, hok, ih true hrest]

/-- Removing the first `localhost` agrees with removing every `localhost`
whenever the list holds at most one. -/
lemma removeFirst_eq_specCurrentMembers (peers : List String)
    (h : peers.count "localhost" ≤ 1) :
    removeFirst "localhost" peers = specCurrentMembers peers := by
  induction peers with
  | nil => rfl
  | cons a rest ih =>
    by_cases ha : a = "localhost"
    · subst ha
      have hcnt : rest.count "localhost" = 0 := by
        simp [List.count_cons] at h; omega
      have hnm : "localhost" ∉ rest := List.count_eq_zero.mp hcnt
      have hfil : specCurrentMembers rest = rest :=
        List.filter_eq_self.mpr (fun b hb => by
          simp only [decide_eq_true_eq]
          exact fun hbe => hnm (hbe ▸ hb))
      calc removeFirst "localhost" ("localhost" :: rest) = rest := by
            simp [removeFirst]
        _ = specCurrentMembers rest := hfil.symm
        _ = specCurrentMembers ("localhost" :: rest) := by
            simp [specCurrentMembers, List.filter_cons]
    · have hcnt : rest.count "localhost" ≤ 1 := by
        simp [List.count_cons, ha] at h
        omega
      calc removeFirst "localhost" (a :: rest)
          = a :: removeFirst "localhost" rest := by simp [removeFirst, ha]
        _ = a :: specCurrentMembers rest := by rw [ih hcnt]
        _ = specCurrentMembers (a :: rest) := by
            simp [specCurrentMembers, List.filter_cons, ha]

/-! Helper lemmas about the version order. -/

/-- Nothing is below the empty component list. -/
lemma verLt_nil_right (v : List Nat) : verLt v [] = false := by
  cases v <;> rfl

/-- A version not below `[4, 0]` is strictly above `[4]`. -/
lemma verLt_four_of_ge_forty (v : List Nat) (h : verLt v [4, 0] = false) :
    verLt [4] v = true := by
  match v with
  | [] => simp [verLt] at h
  | h1 :: t =>
    simp only [verLt] at h ⊢
    rcases Nat.lt_trichotomy h1 4 with hlt | heq | hgt
    · rw [if_pos hlt] at h; exact absurd h (by simp)
    · subst heq
      rw [if_neg (lt_irrefl 4), if_neg (lt_irrefl 4)] at h
      rw [if_neg (lt_irrefl 4), if_neg (lt_irrefl 4)]
      cases t with
      | nil => simp [verLt] at h
      | cons c cs => simp [verLt]
    · rw [if_pos hgt]

/-- A version not below `[4, 0]` is not below `[3, 2]` either. -/
lemma verLt_not_lt32_of_ge_forty (v : List Nat) (h : verLt v [4, 0] = false) :
    verLt v [3, 2] = false := by
  match v with
  | [] => simp [verLt] at h
  | h1 :: t =>
    simp only [verLt] at h ⊢
    rcases Nat.lt_trichotomy h1 4 with hlt | heq | hgt
    · rw [if_pos hlt] at h; exact absurd h (by simp)
    · subst heq
      rw [if_neg (by omega : ¬ (4 : Nat) < 3), if_pos (by omega : (3 : Nat) < 4)]
    · rw [if_neg (by omega : ¬ h1 < 3), if_pos (by omega : 3 < h1)]

/-- A version below `[4, 0]` is not strictly above `[4]`. -/
lemma verLt_four_false_of_lt_forty (v : List Nat) (h : verLt v [4, 0] = true) :
    verLt [4] v = false := by
  match v with
  | [] => rfl
  | h1 :: t =>
    simp only [verLt] at h ⊢
    rcases Nat.lt_trichotomy h1 4 with hlt | heq | hgt
    · rw [if_neg (Nat.lt_asymm hlt), if_pos hlt]
    · subst heq
      rw [if_neg (lt_irrefl 4), if_neg (lt_irrefl 4)] at h ⊢
      cases t with
      | nil => rfl
      | cons c cs =>
        simp only [verLt] at h
        rw [if_neg (by omega : ¬ c < 0)] at h
        rcases Nat.eq_zero_or_pos c with hc | hc
        · subst hc
          rw [if_neg (lt_irrefl 0)] at h
          rw [verLt_nil_right] at h
          exact absurd h (by simp)
        · rw [if_pos hc] at h
          exact absurd h (by simp)
    · rw [if_neg (Nat.lt_asymm hgt), if_pos hgt] at h
      exact absurd h (by simp)

/-! Helper lemmas about the peer-id dictionary. -/

/-- The identifier under which a key would be found in the dict built by
`buildPeerInfo` from an empty accumulator: the last record registering the
key wins (within one record both its keys carry the same id, so their
relative order is immaterial). -/
def findId (k : String) : List PeerRecord → Option String
  | [] => none
  | p :: rest =>
    match findId k rest with
    | some i => some i
    | none => if k = ipOf p ∨ k = p.name then some p.id else none

/-- A record with at least one address registers exactly `ipOf` as its
address key. -/
lemma buildPeerInfo_ip (p : PeerRecord) (a0 : String)
    (h : p.peer_addresses.head? = some a0) :
    (sSplit ':' a0).headD "" = ipOf p := by
  unfold ipOf
  cases hpa : p.peer_addresses with
  | nil => rw [hpa] at h; simp at h
  | cons b bs =>
    rw [hpa] at h
    simp only [List.head?] at h
    cases h
    rfl

/-- Lookup in the built dict: a key registered by some record resolves to
the last registrant's id; otherwise the lookup falls through to the
accumulator. -/
lemma buildPeerInfo_lookup :
    ∀ (peers : List PeerRecord) (acc peer_info : List (String × String))
      (k : String),
      buildPeerInfo peers acc = some peer_info →
      dictLookup k peer_info =
        (match findId k peers with
         | some i => some i
         | none => dictLookup k acc) := by
  intro peers
  induction peers with
  | nil =>
    intro acc peer_info k h
    simp only [buildPeerInfo, Option.some.injEq] at h
    subst h
    rfl
  | cons p rest ih =>
    intro acc peer_info k h
    simp only [buildPeerInfo] at h
    cases ha : p.peer_addresses.head? with
    | none => rw [ha] at h; simp at h
    | some a0 =>
      rw [ha] at h
      have := ih ((((sSplit ':' a0).headD ""), p.id) :: (p.name, p.id) :: acc)
        peer_info k h
      rw [buildPeerInfo_ip p a0 ha] at this
      rw [this]
      simp only [findId]
      cases findId k rest with
      | some i => rfl
      | none =>
        simp only [dictLookup]
        by_cases hip : k = ipOf p
        · rw [if_pos hip, if_pos (Or.inl hip)]
        · rw [if_neg hip]
          by_cases hn : k = p.name
          · rw [if_pos hn, if_pos (Or.inr hn)]
          · rw [if_neg hn, if_neg (by tauto)]

/-- Any id produced by `findId` comes from a record registering the key. -/
lemma findId_some (k : String) :
    ∀ (peers : List PeerRecord) (i : String),
      findId k peers = some i →
      ∃ q ∈ peers, (k = ipOf q ∨ k = q.name) ∧ i = q.id := by
  intro peers
  induction peers with
  | nil => intro i h; simp [findId] at h
  | cons p rest ih =>
    intro i h
    simp only [findId] at h
    cases hr : findId k rest with
    | some j =>
      simp only [hr, Option.some.injEq] at h
      subst h
      obtain ⟨q, hq, hk, hi⟩ := ih j hr
      exact ⟨q, List.mem_cons_of_mem p hq, hk, hi⟩
    | none =>
      simp only [hr] at h
      by_cases hk : k = ipOf p ∨ k = p.name
      · rw [if_pos hk] at h
        simp only [Option.some.injEq] at h
        subst h
        exact ⟨p, List.mem_cons_self p rest, hk, rfl⟩
      · rw [if_neg hk] at h; cases h

/-- A registered key is found by `findId`. -/
lemma findId_isSome_of_mem (k : String) :
    ∀ (peers : List PeerRecord) (p : PeerRecord),
      p ∈ peers → (k = ipOf p ∨ k = p.name) →
      ∃ i, findId k peers = some i := by
  intro peers
  induction peers with
  | nil => intro p hp _; simp at hp
  | cons q rest ih =>
    intro p hp hk
    simp only [findId]
    cases hr : findId k rest with
    | some j => exact ⟨j, rfl⟩
    | none =>
      rcases List.mem_cons.mp hp with heq | hmem
      · subst heq
        rw [if_pos hk]
        exact ⟨p.id, rfl⟩
      · obtain ⟨i, hi⟩ := ih p hmem hk
        rw [hi] at hr; cases hr

/-- Everything in the accumulator survives into the built dict, and every
processed record's two pairs are in the built dict. -/
lemma buildPeerInfo_mem :
    ∀ (peers : List PeerRecord) (acc peer_info : List (String × String)),
      buildPeerInfo peers acc = some peer_info →
      (∀ x ∈ acc, x ∈ peer_info) ∧
      (∀ p ∈ peers, (ipOf p, p.id) ∈ peer_info ∧ (p.name, p.id) ∈ peer_info) := by
  intro peers
  induction peers with
  | nil =>
    intro acc peer_info h
    simp only [buildPeerInfo, Option.some.injEq] at h
    subst h
    exact ⟨fun x hx => hx, fun p hp => absurd hp (List.not_mem_nil p)⟩
  | cons p rest ih =>
    intro acc peer_info h
    simp only [buildPeerInfo] at h
    cases ha : p.peer_addresses.head? with
    | none => rw [ha] at h; simp at h
    | some a0 =>
      rw [ha] at h
      obtain ⟨hacc, hrec⟩ := ih _ peer_info h
      rw [buildPeerInfo_ip p a0 ha] at hacc
      refine ⟨fun x hx => hacc x (by simp [hx]), ?_⟩
      intro q hq
      rcases List.mem_cons.mp hq with heq | hmem
      · subst heq
        exact ⟨hacc _ (by simp), hacc _ (by simp)⟩
      · exact hrec q hmem

/-! Claim theorems. -/

/-- C1: for every desired node list and every (well-formed) pool-listing
output, the nodes probed by the legacy `present` path are exactly the
desired nodes minus the current members (with the `localhost` entry
excluded from current members), in the order of the desired list; and the
run consults the command environment only at the probe commands of that
delta, so a node already present is skipped without issuing a probe. -/
theorem legacy_present_delta (gc : String) (hosts : List String)
    (poolRes : CmdResult) (peers toProbe : List String)
    (hparse : parsePoolList poolRes.stdout = some peers)
    (hcount : peers.count "localhost" ≤ 1)
    (hprobe : get_to_be_probed_hosts poolRes hosts = some toProbe) :
    (∀ x, x ∈ toProbe ↔ x ∈ hosts ∧ x ∉ specCurrentMembers peers)
    ∧ toProbe.Sublist hosts
    ∧ ∀ (forceParam : Bool) (exec1 exec3 : List String → CmdResult),
        (∀ n ∈ toProbe, exec1 (peercmd gc "probe" "" n) =
          exec3 (peercmd gc "probe" "" n)) →
        gluster_peer_ops gc "present" hosts forceParam poolRes exec1 =
          gluster_peer_ops gc "present" hosts forceParam poolRes exec3 := by
  have hT : toProbe = hosts.filter
      (fun h => decide (h ∉ removeFirst "localhost" peers)) := by
    unfold get_to_be_probed_hosts at hprobe
    rw [hparse] at hprobe
    simp only [Option.map_some', Option.some.injEq] at hprobe
    exact hprobe.symm
  refine ⟨?_, ?_, ?_⟩
  · intro x
    have hT2 : toProbe = hosts.filter
        (fun h => decide (h ∉ specCurrentMembers peers)) := by
      rw [hT, removeFirst_eq_specCurrentMembers peers hcount]
    rw [hT2]
    simp [List.mem_filter]
  · rw [hT]; exact List.filter_sublist hosts
  · intro forceParam exec1 exec3 hag
    unfold gluster_peer_ops
    by_cases he : hosts.isEmpty
    · simp [he]
    · simp only [he, Bool.false_eq_true, if_false, if_true, hprobe,
        Option.map_some', Option.some.injEq]
      exact call_peer_commands_congr exec1 exec3 gc "probe" "" toProbe false hag

/-- C1 witness: for desired `["A", "B", "C"]` and a pool listing whose
sole member row is `B`, the delta is exactly `["A", "C"]` and the claimed
properties hold at this instance. -/
theorem legacy_present_delta_witness :
    get_to_be_probed_hosts ⟨0, "UUID\tHostname\tState\nid1\tB\tConnected", ""⟩
        ["A", "B", "C"] = some ["A", "C"]
    ∧ ((∀ x, x ∈ ["A", "C"] ↔ x ∈ ["A", "B", "C"] ∧
          x ∉ specCurrentMembers ["B"])
      ∧ List.Sublist ["A", "C"] ["A", "B", "C"]
      ∧ ∀ (forceParam : Bool) (exec1 exec3 : List String → CmdResult),
          (∀ n ∈ ["A", "C"], exec1 (peercmd "gluster" "probe" "" n) =
            exec3 (peercmd "gluster" "probe" "" n)) →
          gluster_peer_ops "gluster" "present" ["A", "B", "C"] forceParam
              ⟨0, "UUID\tHostname\tState\nid1\tB\tConnected", ""⟩ exec1 =
            gluster_peer_ops "gluster" "present" ["A", "B", "C"] forceParam
              ⟨0, "UUID\tHostname\tState\nid1\tB\tConnected", ""⟩ exec3) :=
  ⟨by decide,
   legacy_present_delta "gluster" ["A", "B", "C"]
     ⟨0, "UUID\tHostname\tState\nid1\tB\tConnected", ""⟩ ["B"] ["A", "C"]
     (by decide) (by decide) (by decide)⟩

/-- C2: per-node outcome classification of the legacy reconciler — exit
code zero with a sentinel substring (`already in peer` / `localhost not
needed`) leaves the `changed` flag untouched; exit code zero otherwise
records a change; a non-zero exit code terminates the whole run fatally
with the captured stderr, for every possible remainder of the node list
(so no subsequent node is attempted, and the `changed` flag accumulated
so far is kept, not rolled back). -/
theorem legacy_outcome_classification (exec2 : List String → CmdResult)
    (gc action force node : String) (rest : List String) (changed : Bool)
    (res : CmdResult) (hres : exec2 (peercmd gc action force node) = res) :
    (res.rc = 0 → sentinelUnchanged res.stdout = true →
      call_peer_commands exec2 gc action force (node :: rest) changed =
        call_peer_commands exec2 gc action force rest changed)
    ∧ (res.rc = 0 → sentinelUnchanged res.stdout = false →
      call_peer_commands exec2 gc action force (node :: rest) changed =
        call_peer_commands exec2 gc action force rest true)
    ∧ (res.rc ≠ 0 →
      call_peer_commands exec2 gc action force (node :: rest) changed =
        RunOutcome.failed changed (some res.rc) res.stderr) := by
  subst hres
  refine ⟨?_, ?_, ?_⟩
  · intro h0 hs
    simp [call_peer_commands, h0, hs]
  · intro h0 hs
    simp [call_peer_commands, h0, hs]
  · intro h0
    simp [call_peer_commands, h0]

/-- C2 witness: a sentinel response leaves the flag, a plain success sets
it, and a failing second node of three aborts with its stderr while the
first node's recorded change is kept. -/
theorem legacy_outcome_classification_witness :
    (call_peer_commands (fun _ => ⟨0, "Host A already in peer list", ""⟩)
        "g" "probe" "" ["A"] false =
      call_peer_commands (fun _ => ⟨0, "Host A already in peer list", ""⟩)
        "g" "probe" "" [] false)
    ∧ (call_peer_commands (fun _ => ⟨0, "peer probe: success", ""⟩)
        "g" "probe" "" ["A"] false =
      call_peer_commands (fun _ => ⟨0, "peer probe: success", ""⟩)
        "g" "probe" "" [] true)
    ∧ (call_peer_commands
        (fun c => if c = peercmd "g" "probe" "" "B" then ⟨2, "", "boom"⟩
          else ⟨0, "ok", ""⟩)
        "g" "probe" "" ["B", "C"] true =
      RunOutcome.failed true (some 2) "boom") :=
  ⟨(legacy_outcome_classification _ "g" "probe" "" "A" [] false _ rfl).1
      (by decide) (by decide),
   (legacy_outcome_classification _ "g" "probe" "" "A" [] false _ rfl).2.1
      (by decide) (by decide),
   (legacy_outcome_classification _ "g" "probe" "" "B" ["C"] true _ rfl).2.2
      (by decide)⟩

/-- C3 counterexample: a backend-reported failure reason that is neither a
conflict nor an internal server error — here `"Not Found"` on the first of
two nodes — is NOT fatal: the loop continues through the remaining node
and the run exits successfully, refuting `any other reported failure
reason is fatal and aborts the remaining batch`. -/
theorem api_add_other_reason_not_fatal :
    glusterd2_add_peers (fun _ => ApiResp.apiError "Not Found") ["X", "Y"]
        false = ApiOutcome.exited false
    ∧ sLower "Not Found" ≠ "conflict"
    ∧ sLower "Not Found" ≠ "internal server error" := by decide

/-- C3 amended: success marks the node changed; a conflict reason
(case-insensitively) is unchanged-success and the batch continues; an
`internal server error` reason (case-insensitively) is fatal and aborts
the remaining batch; any other reported failure reason is silently
ignored — the node is left unchanged and the batch continues. -/
theorem api_add_classification (resp : String → ApiResp) (peer : String)
    (rest : List String) (changed : Bool) :
    (resp peer = ApiResp.ok →
      glusterd2_add_peers resp (peer :: rest) changed =
        glusterd2_add_peers resp rest true)
    ∧ (∀ r, resp peer = ApiResp.apiError r → sLower r = "conflict" →
      glusterd2_add_peers resp (peer :: rest) changed =
        glusterd2_add_peers resp rest changed)
    ∧ (∀ r, resp peer = ApiResp.apiError r →
      sLower r = "internal server error" →
      glusterd2_add_peers resp (peer :: rest) changed =
        ApiOutcome.failed ("Failed: " ++ r))
    ∧ (∀ r, resp peer = ApiResp.apiError r → sLower r ≠ "conflict" →
      sLower r ≠ "internal server error" →
      glusterd2_add_peers resp (peer :: rest) changed =
        glusterd2_add_peers resp rest changed) := by
  refine ⟨?_, ?_, ?_, ?_⟩
  · intro h
    simp [glusterd2_add_peers, h]
  · intro r hr hc
    simp [glusterd2_add_peers, hr, hc]
  · intro r hr hi
    simp [glusterd2_add_peers, hr, hi]
  · intro r hr hc hi
    simp [glusterd2_add_peers, hr, hc, hi]

/-- C3 amended witness: one concrete instance of each branch of the
classification. -/
theorem api_add_classification_witness :
    (glusterd2_add_peers (fun _ => ApiResp.ok) ["X"] false =
      glusterd2_add_peers (fun _ => ApiResp.ok) [] true)
    ∧ (glusterd2_add_peers (fun _ => ApiResp.apiError "Conflict") ["X"] false =
      glusterd2_add_peers (fun _ => ApiResp.apiError "Conflict") [] false)
    ∧ (glusterd2_add_peers
        (fun _ => ApiResp.apiError "Internal Server Error") ["X"] false =
      ApiOutcome.failed ("Failed: " ++ "Internal Server Error"))
    ∧ (glusterd2_add_peers (fun _ => ApiResp.apiError "Bad Request") ["X"]
        false =
      glusterd2_add_peers (fun _ => ApiResp.apiError "Bad Request") [] false) :=
  ⟨(api_add_classification _ "X" [] false).1 rfl,
   (api_add_classification _ "X" [] false).2.1 "Conflict" rfl (by decide),
   (api_add_classification _ "X" [] false).2.2.1 "Internal Server Error" rfl
      (by decide),
   (api_add_classification _ "X" [] false).2.2.2 "Bad Request" rfl
      (by decide) (by decide)⟩

/-- C4: version gating — with the minimum supported threshold
`LooseVersion("3.2")` and the backend-switch threshold
`LooseVersion("4.0")`, every version below the minimum fails as
unsupported, every version at or above the switch threshold selects the
API backend, and every version between the two selects the legacy
backend; concretely `"3.1"` fails, `"3.5"` selects legacy and `"4.2"`
selects the API backend. -/
theorem version_gating :
    (∀ v : String,
      (verLt (parseLoose v) (parseLoose "3.2") = true →
        selectBackend v = Backend.unsupported)
      ∧ (verLt (parseLoose v) (parseLoose "4.0") = false →
        selectBackend v = Backend.api)
      ∧ (verLt (parseLoose v) (parseLoose "3.2") = false →
        verLt (parseLoose v) (parseLoose "4.0") = true →
        selectBackend v = Backend.legacy))
    ∧ selectBackend "3.1" = Backend.unsupported
    ∧ selectBackend "3.5" = Backend.legacy
    ∧ selectBackend "4.2" = Backend.api := by
  refine ⟨?_, by decide, by decide, by decide⟩
  intro v
  have e32 : parseLoose "3.2" = [3, 2] := by decide
  have e40 : parseLoose "4.0" = [4, 0] := by decide
  have e4 : parseLoose "4" = [4] := by decide
  refine ⟨?_, ?_, ?_⟩
  · intro h
    simp [selectBackend, h]
  · intro h
    rw [e40] at h
    have h4 := verLt_four_of_ge_forty _ h
    have h32 := verLt_not_lt32_of_ge_forty _ h
    simp [selectBackend, e32, e4, h32, h4]
  · intro h32 h40
    rw [e40] at h40
    have h4 := verLt_four_false_of_lt_forty _ h40
    simp [selectBackend, e4, h32, h4]

/-- C4 witness: further concrete versions on each side of the two
thresholds, including the switch threshold itself. -/
theorem version_gating_witness :
    selectBackend "2.9" = Backend.unsupported
    ∧ selectBackend "4.0" = Backend.api
    ∧ selectBackend "3.9" = Backend.legacy :=
  ⟨(version_gating.1 "2.9").1 (by decide),
   (version_gating.1 "4.0").2.1 (by decide),
   (version_gating.1 "3.9").2.2 (by decide) (by decide)⟩

/-- C5: under the API backend, an `absent` node whose identifier cannot
be resolved from the fetched roster is a silent no-op — the loop
continues with the rest of the batch and the `changed` flag untouched,
for every environment, remainder and accumulated flag. -/
theorem api_remove_unknown_peer (remResp : String → RemResp)
    (peer_ids : List (String × String)) (node : String)
    (rest : List String) (changed : Bool)
    (h : dictLookup node peer_ids = none) :
    glusterd2_remove_peers remResp peer_ids (node :: rest) changed =
      glusterd2_remove_peers remResp peer_ids rest changed := by
  simp [glusterd2_remove_peers, h]

/-- C5 witness: a node absent from the id dict is skipped and the
subsequent resolvable node is still processed (the run exits changed). -/
theorem api_remove_unknown_peer_witness :
    glusterd2_remove_peers (fun _ => RemResp.ok) [("node1", "u1")]
        ["stranger", "node1"] false =
      glusterd2_remove_peers (fun _ => RemResp.ok) [("node1", "u1")]
        ["node1"] false
    ∧ glusterd2_remove_peers (fun _ => RemResp.ok) [("node1", "u1")]
        ["node1"] false = ApiOutcome.exited true :=
  ⟨api_remove_unknown_peer _ _ _ _ _ (by decide), by decide⟩

/-- C6: dual-key identity resolution — for every record of a roster from
which the resolver builds its dict, the record's id is registered under
both its display name and the host portion of its first address, and
(provided any other record sharing one of those two keys carries the same
id, without which no resolver could return one identifier per key)
looking up either key returns that same id. -/
theorem dual_key_resolution (peers : List PeerRecord)
    (peer_info : List (String × String)) (p : PeerRecord)
    (hbuild : get_peer_id 200 peers = Except.ok peer_info)
    (hp : p ∈ peers)
    (hname : ∀ q ∈ peers, (p.name = ipOf q ∨ p.name = q.name) → q.id = p.id)
    (haddr : ∀ q ∈ peers, (ipOf p = ipOf q ∨ ipOf p = q.name) → q.id = p.id) :
    dictLookup p.name peer_info = some p.id
    ∧ dictLookup (ipOf p) peer_info = some p.id
    ∧ (p.name, p.id) ∈ peer_info ∧ (ipOf p, p.id) ∈ peer_info := by
  have hb : buildPeerInfo peers [] = some peer_info := by
    unfold get_peer_id at hbuild
    rw [if_pos rfl] at hbuild
    cases hbi : buildPeerInfo peers [] with
    | none => simp only [hbi] at hbuild; cases hbuild
    | some info =>
      simp only [hbi, Except.ok.injEq] at hbuild
      rw [hbuild]
  have key : ∀ k : String, (k = ipOf p ∨ k = p.name) →
      (∀ q ∈ peers, (k = ipOf q ∨ k = q.name) → q.id = p.id) →
      dictLookup k peer_info = some p.id := by
    intro k hkp huniq
    obtain ⟨i, hi⟩ := findId_isSome_of_mem k peers p hp hkp
    obtain ⟨q, hq, hkq, hiq⟩ := findId_some k peers i hi
    have hqp : q.id = p.id := huniq q hq hkq
    have hlook := buildPeerInfo_lookup peers [] peer_info k hb
    rw [hi] at hlook
    rw [hlook, hiq, hqp]
  have hmem := (buildPeerInfo_mem peers [] peer_info hb).2 p hp
  exact ⟨key p.name (Or.inr rfl) hname, key (ipOf p) (Or.inl rfl) haddr,
    hmem.2, hmem.1⟩

/-- C6 witness: a two-record roster; the record with name `node1` and
first address `10.0.0.1:24008` resolves to `u1` through either key, and
both pairs are registered in the built dict. -/
theorem dual_key_resolution_witness :
    dictLookup "node1"
        [("10.0.0.2", "u2"), ("node2", "u2"), ("10.0.0.1", "u1"),
          ("node1", "u1")] = some "u1"
    ∧ dictLookup "10.0.0.1"
        [("10.0.0.2", "u2"), ("node2", "u2"), ("10.0.0.1", "u1"),
          ("node1", "u1")] = some "u1"
    ∧ ("node1", "u1") ∈
        [("10.0.0.2", "u2"), ("node2", "u2"), ("10.0.0.1", "u1"),
          ("node1", "u1")]
    ∧ ("10.0.0.1", "u1") ∈
        [("10.0.0.2", "u2"), ("node2", "u2"), ("10.0.0.1", "u1"),
          ("node1", "u1")] :=
  dual_key_resolution
    [⟨"node1", ["10.0.0.1:24008"], "u1"⟩, ⟨"node2", ["10.0.0.2:24008"], "u2"⟩]
    [("10.0.0.2", "u2"), ("node2", "u2"), ("10.0.0.1", "u1"), ("node1", "u1")]
    ⟨"node1", ["10.0.0.1:24008"], "u1"⟩
    rfl (by decide) (by decide) (by decide)

/-- C7 counterexample: a failing pool-listing invocation (exit code 1) is
NOT propagated as a fatal error — `get_to_be_probed_hosts` never consults
the exit code, computes an (empty) membership view from the empty stdout,
and returns every desired node for probing. -/
theorem pool_list_failure_not_fatal :
    get_to_be_probed_hosts ⟨1, "", "Connection failed"⟩ ["A"] = some ["A"]
    ∧ (1 : Int) ≠ 0 := by decide

/-- C7 amended: the exit code (and stderr) of the pool-listing command is
ignored — the membership view is computed from stdout alone, so a failed
invocation with empty stdout silently yields an empty membership view and
every desired node is probed, rather than a fatal error. -/
theorem pool_list_rc_ignored :
    (∀ (rc : Int) (out err : String) (hosts : List String),
      get_to_be_probed_hosts ⟨rc, out, err⟩ hosts =
        get_to_be_probed_hosts ⟨0, out, ""⟩ hosts)
    ∧ (∀ (rc : Int) (err : String) (hosts : List String),
      get_to_be_probed_hosts ⟨rc, "", err⟩ hosts = some hosts) := by
  constructor
  · intro rc out err hosts
    rfl
  · intro rc err hosts
    have hp : parsePoolList "" = some [] := by decide
    unfold get_to_be_probed_hosts
    have hs : (⟨rc, "", err⟩ : CmdResult).stdout = "" := rfl
    rw [hs, hp]
    simp only [Option.map_some', Option.some.injEq]
    exact List.filter_eq_self.mpr (fun a _ => by simp [removeFirst])

/-- C8: idempotence of `present` on both backends — when every desired
node is already a current member (legacy) and every creation call reports
a conflict (API), re-applying the request reports `changed = false`. -/
theorem present_idempotent_second_run (gc : String) (hosts : List String)
    (poolRes : CmdResult) (peers : List String)
    (exec2 : List String → CmdResult) (forceParam : Bool)
    (hparse : parsePoolList poolRes.stdout = some peers)
    (hmem : ∀ h ∈ hosts, h ∈ removeFirst "localhost" peers)
    (hne : hosts ≠ [])
    (resp : String → ApiResp) (nodes : List String)
    (hconf : ∀ n ∈ nodes, ∃ r, resp n = ApiResp.apiError r ∧
      sLower r = "conflict") :
    gluster_peer_ops gc "present" hosts forceParam poolRes exec2 =
      some (RunOutcome.exited false)
    ∧ glusterd2_add_peers resp nodes false = ApiOutcome.exited false := by
  constructor
  · have he : hosts.isEmpty = false := by
      cases hosts with
      | nil => exact absurd rfl hne
      | cons a t => rfl
    have hfil : hosts.filter
        (fun h => decide (h ∉ removeFirst "localhost" peers)) = [] :=
      List.filter_eq_nil_iff.mpr (fun a ha => by
        simp only [decide_eq_true_eq, not_not]
        exact hmem a ha)
    unfold gluster_peer_ops get_to_be_probed_hosts
    simp only [he, Bool.false_eq_true, if_false, if_true, hparse,
      Option.map_some', hfil]
    rfl
  · induction nodes with
    | nil => rfl
    | cons n rest ih =>
      obtain ⟨r, hr, hlow⟩ := hconf n (List.mem_cons_self n rest)
      have ihr := ih (fun m hm => hconf m (List.mem_cons_of_mem n hm))
      simp [glusterd2_add_peers, hr, hlow, ihr]

/-- C8 witness: a pool listing already holding the single desired node
`A` (plus the localhost self-entry) and an API environment reporting
`Conflict` for the single node `X` both report no change. -/
theorem present_idempotent_second_run_witness :
    gluster_peer_ops "gluster" "present" ["A"] false
        ⟨0, "UUID\tHostname\tState\nid1\tA\tConnected\nid2\tlocalhost\tConnected", ""⟩
        (fun _ => ⟨0, "", ""⟩) = some (RunOutcome.exited false)
    ∧ glusterd2_add_peers (fun _ => ApiResp.apiError "Conflict") ["X"] false =
        ApiOutcome.exited false :=
  present_idempotent_second_run "gluster" ["A"]
    ⟨0, "UUID\tHostname\tState\nid1\tA\tConnected\nid2\tlocalhost\tConnected", ""⟩
    ["A", "localhost"] (fun _ => ⟨0, "", ""⟩) false (by decide) (by decide)
    (by decide) (fun _ => ApiResp.apiError "Conflict") ["X"]
    (fun n _ => ⟨"Conflict", rfl, by decide⟩)

/-- C9: the aggregate `changed` flag is the OR over per-node outcomes —
on any run of the legacy loop in which every command exits zero, the
result is success with `changed` the disjunction of the starting flag and
the per-node non-sentinel indicators; on any run of the API removal loop
in which every resolvable node deletes successfully, the result is
success with `changed` the disjunction of the starting flag and the
per-node resolvability indicators.  In both, an unchanged node never
resets an earlier `true`. -/
theorem aggregate_changed_or :
    (∀ (exec2 : List String → CmdResult) (gc action force : String)
       (nodes : List String) (changed : Bool),
      (∀ n ∈ nodes, (exec2 (peercmd gc action force n)).rc = 0) →
      call_peer_commands exec2 gc action force nodes changed =
        RunOutcome.exited (changed || nodes.any
          (fun n => !sentinelUnchanged
            (exec2 (peercmd gc action force n)).stdout)))
    ∧ (∀ (remResp : String → RemResp) (peer_ids : List (String × String))
         (nodes : List String) (changed : Bool),
      (∀ n ∈ nodes, ∀ pid, dictLookup n peer_ids = some pid →
        remResp pid = RemResp.ok) →
      glusterd2_remove_peers remResp peer_ids nodes changed =
        ApiOutcome.exited (changed ||
          nodes.any (fun n => (dictLookup n peer_ids).isSome))) :=
  ⟨fun exec2 gc action force nodes changed h =>
    call_peer_commands_all_ok exec2 gc action force nodes changed h,
   fun remResp peer_ids nodes changed h =>
    glusterd2_remove_peers_all_ok remResp peer_ids nodes changed h⟩

/-- C9 witness: a legacy run over one already-present and one new node
reports `changed = true`; an API removal over one unknown and one known
node reports `changed = true`; and with only unchanged nodes both report
`false`. -/
theorem aggregate_changed_or_witness :
    call_peer_commands
        (fun c => if c = peercmd "g" "probe" "" "A"
          then ⟨0, "Host A already in peer list", ""⟩
          else ⟨0, "peer probe: success", ""⟩)
        "g" "probe" "" ["A", "B"] false =
      RunOutcome.exited
        ((false || List.any ["A", "B"]
          (fun n => !sentinelUnchanged
            ((fun c => if c = peercmd "g" "probe" "" "A"
              then (⟨0, "Host A already in peer list", ""⟩ : CmdResult)
              else ⟨0, "peer probe: success", ""⟩)
              (peercmd "g" "probe" "" n)).stdout)))
    ∧ glusterd2_remove_peers (fun _ => RemResp.ok) [("node1", "u1")]
        ["stranger", "node1"] false =
      ApiOutcome.exited
        ((false || List.any ["stranger", "node1"]
          (fun n => (dictLookup n [("node1", "u1")]).isSome))) :=
  ⟨aggregate_changed_or.1 _ "g" "probe" "" ["A", "B"] false (by decide),
   aggregate_changed_or.2 _ [("node1", "u1")] ["stranger", "node1"] false
     (by decide)⟩

/-- C10: the API failure-reason classification lowercases the reported
reason before comparing, so any letter-casing of `conflict` is absorbed
as unchanged and any letter-casing of `internal server error` is fatal. -/
theorem api_reason_case_insensitive (resp : String → ApiResp)
    (peer : String) (rest : List String) (changed : Bool) (r : String)
    (hr : resp peer = ApiResp.apiError r) :
    (sLower r = "conflict" →
      glusterd2_add_peers resp (peer :: rest) changed =
        glusterd2_add_peers resp rest changed)
    ∧ (sLower r = "internal server error" →
      glusterd2_add_peers resp (peer :: rest) changed =
        ApiOutcome.failed ("Failed: " ++ r)) := by
  constructor
  · intro hc
    simp [glusterd2_add_peers, hr, hc]
  · intro hi
    simp [glusterd2_add_peers, hr, hi]

/-- C10 witness: the reasons `CONFLICT` and `Internal Server Error` —
cased differently from the compared literals — are classified as
unchanged and fatal respectively. -/
theorem api_reason_case_insensitive_witness :
    glusterd2_add_peers (fun _ => ApiResp.apiError "CONFLICT") ["X"] false =
      ApiOutcome.exited false
    ∧ glusterd2_add_peers (fun _ => ApiResp.apiError "Internal Server Error")
        ["Y"] true = ApiOutcome.failed ("Failed: " ++ "Internal Server Error") :=
  ⟨((api_reason_case_insensitive _ "X" [] false "CONFLICT" rfl).1
      (by decide)).trans (by decide),
   (api_reason_case_insensitive _ "Y" [] true "Internal Server Error" rfl).2
      (by decide)⟩

end GlusterPeer
